import Mathlib

/-!
Verification development for the xml-to-postgres streaming XML transformer
(src/main.rs). Strings from the Rust source are modelled as lists of
characters (Chars); the relevant functions of the source are shallowly
embedded as executable Lean definitions, each annotated with the source
lines it translates. Regex-based rewriting (the find/replace feature) is
abstracted as an arbitrary function on Chars, and the fixed whitespace
regex used by the trim feature is embedded directly by its matching
semantics.
-/

set_option maxRecDepth 10000
set_option linter.unusedVariables false

abbrev Chars := List Char

/-- Replace every occurrence of the single character t by the string r,
left to right. This is the semantics of the cow_replace calls at
src/main.rs:860-863, whose patterns are all single characters. -/
def replaceAllChar (t : Char) (r : Chars) : Chars → Chars
  | [] => []
  | c :: rest => (if c = t then r else [c]) ++ replaceAllChar t r rest

/-- Per-character view of the chained escape replacements (used only in
proofs about escapeNoTrim). -/
def escChar (c : Char) : Chars :=
  if c = '\\' then ['\\', '\\']
  else if c = '\r' then ['\\', 'r']
  else if c = '\n' then ['\\', 'n']
  else if c = '\t' then ['\\', 't']
  else [c]

/-- The escaping applied to a decoded text node when trim is false:
src/main.rs:863, replacing backslash first, then CR, LF and TAB. -/
def escapeNoTrim (v : Chars) : Chars :=
  replaceAllChar '\t' ['\\', 't']
    (replaceAllChar '\n' ['\\', 'n']
      (replaceAllChar '\r' ['\\', 'r']
        (replaceAllChar '\\' ['\\', '\\'] v)))

/-- Characters of the whitespace class of the trim regex
(src/main.rs:563, the class in brackets). -/
def wsChar (c : Char) : Bool :=
  c = ' ' || c = '\n' || c = '\r' || c = '\t'

/-- Semantics of trimre.replace_all(decoded, onespace) at src/main.rs:859
for the fixed regex of src/main.rs:563 (a whitespace run that must contain
a newline): scanning left to right, a maximal whitespace run containing at
least one LF is the leftmost greedy match and is replaced by one space;
any other character, and whitespace runs with no LF, pass through. -/
def trimReplaceAll : Chars → Chars
  | [] => []
  | c :: rest =>
    if wsChar c then
      if ((c :: rest).takeWhile wsChar).contains '\n' then
        ' ' :: trimReplaceAll (rest.dropWhile wsChar)
      else
        (c :: rest.takeWhile wsChar) ++ trimReplaceAll (rest.dropWhile wsChar)
    else
      c :: trimReplaceAll rest
  termination_by l => l.length
  decreasing_by
    all_goals simp only [List.length_cons]
    . exact Nat.lt_succ_of_le (List.dropWhile_sublist wsChar).length_le
    . exact Nat.lt_succ_of_le (List.dropWhile_sublist wsChar).length_le
    . exact Nat.lt_succ_self rest.length

/-- The escaping applied after trimming when trim is true:
src/main.rs:860, only backslash and TAB are escaped. -/
def escapeTrimOnly (v : Chars) : Chars :=
  replaceAllChar '\t' ['\\', 't'] (replaceAllChar '\\' ['\\', '\\'] v)

/-- The text written into a column accumulator for a decoded text node v,
src/main.rs:858-864: with trim, first collapse whitespace runs containing
a newline, then escape backslash and TAB; without trim, escape backslash,
CR, LF and TAB. -/
def escapeText (trim : Bool) (v : Chars) : Chars :=
  if trim then escapeTrimOnly (trimReplaceAll v) else escapeNoTrim v

/-- Decoding of an emitted TSV field, as described by the spec sentence on
the escape round-trip: one left-to-right pass replacing the two-character
escapes by backslash, CR, LF and TAB. -/
def decodeTSV : Chars → Chars
  | [] => []
  | c :: rest =>
    if c = '\\' then
      match rest with
      | [] => [c]
      | d :: rest2 =>
        if d = '\\' then '\\' :: decodeTSV rest2
        else if d = 'r' then '\r' :: decodeTSV rest2
        else if d = 'n' then '\n' :: decodeTSV rest2
        else if d = 't' then '\t' :: decodeTSV rest2
        else c :: d :: decodeTSV rest2
    else c :: decodeTSV rest

/-- The validated values of the aggr option (src/main.rs:417-421 ensures
any other value is rejected at configuration time). -/
inductive Aggr where
  | first
  | last
  | append
deriving DecidableEq

/-- allow_iteration, src/main.rs:1107-1122. Given the aggr option and the
current accumulator, decide whether a subsequent value may be written;
returns (allowed, updated accumulator, warnings printed). With no aggr a
warning is printed unless warnings are hushed; with append a comma
separator is pushed when the accumulator is non-empty. -/
def allow_iteration (aggr : Option Aggr) (hushWarning : Bool) (value : Chars) :
    Bool × Chars × Nat :=
  match aggr with
  | none => if hushWarning then (false, value, 0) else (false, value, 1)
  | some .first => (false, value, 0)
  | some .last => (true, value, 0)
  | some .append =>
    (true, if value = [] then value else value ++ [','], 0)

/-- A column of a table at run time: the option fields of struct Column
(src/main.rs:139-159) that the event loop consults, plus the value
accumulator. Regex find/replace is abstracted as a function on Chars and
the incl/excl regexes as predicates. -/
structure ColState where
  path : Chars
  attr : Option Chars
  serial : Bool
  aggr : Option Aggr
  trim : Bool
  hide : Bool
  findRepl : Option (Chars → Chars)
  incl : Option (Chars → Bool)
  excl : Option (Chars → Bool)
  value : Chars

def colDefault : ColState :=
  ⟨[], none, false, none, false, false, none, none, none, []⟩

/-- Delivery of one decoded text node to one column,
src/main.rs:853-868: if the accumulator is non-empty consult
allow_iteration (dropping the value if it refuses, clearing first for
aggr last); then push the escaped text and apply find/replace to the
whole accumulator. Returns (updated column, warnings printed, whether the
value was written). -/
def applyText (hushWarning : Bool) (c : ColState) (v : Chars) :
    ColState × Nat × Bool :=
  if c.value = [] then
    let pushed := c.value ++ escapeText c.trim v
    let newval := match c.findRepl with
      | some f => f pushed
      | none => pushed
    ({ c with value := newval }, 0, true)
  else
    match allow_iteration c.aggr hushWarning c.value with
    | (allowed, value1, warns) =>
      if allowed then
        let value2 := if c.aggr = some .last then [] else value1
        let pushed := value2 ++ escapeText c.trim v
        let newval := match c.findRepl with
          | some f => f pushed
          | none => pushed
        ({ c with value := newval }, warns, true)
      else
        ({ c with value := value1 }, warns, false)

/-- Delivery of a whole sequence of text values to one column, counting
the warnings printed along the way. -/
def receiveAll (hushWarning : Bool) (c : ColState) : List Chars → ColState × Nat
  | [] => (c, 0)
  | v :: vs =>
    match applyText hushWarning c v with
    | (c1, w, _) =>
      match receiveAll hushWarning c1 vs with
      | (c2, w2) => (c2, w + w2)

/-- Eligibility of a column for a text node, src/main.rs:851-852: its path
must match the current path (pm is path_match partially applied to the
current path) and it must be neither an attr column nor a serial column. -/
def colEligible (pm : Chars → Bool) (c : ColState) : Bool :=
  pm c.path && c.attr.isNone && !c.serial

/-- Index of the first column eligible for a text node, in declaration
order. -/
def firstEligible (pm : Chars → Bool) : List ColState → Option Nat
  | [] => none
  | c :: rest =>
    if colEligible pm c then some 0
    else (firstEligible pm rest).map (· + 1)

/-- The column loop run for one Text event, src/main.rs:850-875: scan the
columns in order; the first eligible column receives the text (the loop
returns right after, so later columns receive nothing); if that column is
column 0 and the value was written, the whole new accumulator is pushed
onto the table lastid (src/main.rs:870-872). Returns (columns, lastid,
warnings printed). -/
def textColsGo (hushWarning : Bool) (pm : Chars → Bool) (v : Chars)
    (isFirst : Bool) (lastid : Chars) : List ColState → List ColState × Chars × Nat
  | [] => ([], lastid, 0)
  | c :: rest =>
    if colEligible pm c then
      match applyText hushWarning c v with
      | (c1, warns, wrote) =>
        (c1 :: rest, if wrote && isFirst then lastid ++ c1.value else lastid, warns)
    else
      match textColsGo hushWarning pm v false lastid rest with
      | (rest1, lastid1, warns) => (c :: rest1, lastid1, warns)

/-- The attr branch of the Start-event column loop, src/main.rs:781-807:
scan the element attributes; for each one whose key equals the requested
name, consult allow_iteration when the accumulator is non-empty (break on
refusal), clear for aggr last, push the raw attribute value onto lastid
when the column is column 0, and push the find/replace rewrite of the raw
value onto the accumulator (the raw value itself without find/replace);
after the loop warn if the accumulator is still empty. Returns
(accumulator, lastid, warnings printed). -/
def attrReceive (hushWarning : Bool) (request : Chars)
    (fr : Option (Chars → Chars)) (aggr : Option Aggr) (isFirst : Bool) :
    List (Chars × Chars) → Chars → Chars → Chars × Chars × Nat
  | [], value, lastid =>
    (value, lastid, if value = [] && !hushWarning then 1 else 0)
  | (k, av) :: rest, value, lastid =>
    if k = request then
      if value = [] then
        let lastid1 := if isFirst then lastid ++ av else lastid
        let pushed := value ++ (match fr with | some f => f av | none => av)
        attrReceive hushWarning request fr aggr isFirst rest pushed lastid1
      else
        match allow_iteration aggr hushWarning value with
        | (allowed, value1, warns) =>
          if allowed then
            let value2 := if aggr = some .last then [] else value1
            let lastid1 := if isFirst then lastid ++ av else lastid
            let pushed := value2 ++ (match fr with | some f => f av | none => av)
            match attrReceive hushWarning request fr aggr isFirst rest pushed lastid1 with
            | (v2, l2, w2) => (v2, l2, warns + w2)
          else
            (value1, lastid, warns)
    else
      attrReceive hushWarning request fr aggr isFirst rest value lastid

/-- path_match, src/main.rs:1102-1105: a mask with no wildcard characters
is compared by string equality; otherwise the glob matcher is consulted
(abstracted here as the parameter gm, mask first). -/
def path_match (gm : Chars → Chars → Bool) (path mask : Chars) : Bool :=
  if !(mask.contains '*' || mask.contains (Char.ofNat 123)) then
    decide (path = mask)
  else gm mask path

/-- Decimal digits of n, most significant first, as produced by the Rust
u64 to_string call at src/main.rs:768. -/
def natDigitsAux : Nat → Chars → Chars
  | 0, acc => acc
  | n + 1, acc => natDigitsAux ((n + 1) / 10) (Nat.digitChar ((n + 1) % 10) :: acc)

def natDigits (n : Nat) : Chars :=
  if n = 0 then ['0'] else natDigitsAux n []

/-- The state touched by a serial column, src/main.rs:764-773: the Cell
holding the counter (a u64, hence the wrap at 2 to the 64th), the column
accumulator and the table lastid. -/
structure SerialState where
  counter : Nat
  value : Chars
  lastid : Chars

/-- One Start event whose path matches the serial column,
src/main.rs:764-773: only while the accumulator is empty, the counter is
advanced and its decimal form is pushed onto the accumulator and onto
lastid. -/
def serialHit (s : SerialState) : SerialState :=
  if s.value = [] then
    let id := (s.counter + 1) % (2 ^ 64)
    ⟨id, s.value ++ natDigits id, s.lastid ++ natDigits id⟩
  else s

def iterHits : Nat → SerialState → SerialState
  | 0, s => s
  | k + 1, s => iterHits k (serialHit s)

/-- A run of a serial column over successive rows: each row clears the
accumulator and lastid (row start, src/main.rs:747, and row emission,
src/main.rs:1016-1046) and sees a given number of matching Start events;
the value emitted for each row is the accumulator at row end. Returns the
emitted values and the final counter. -/
def serialRun (counter : Nat) : List Nat → List Chars × Nat
  | [] => ([], counter)
  | k :: ks =>
    let s := iterHits k ⟨counter, [], []⟩
    match serialRun s.counter ks with
    | (vs, c2) => (s.value :: vs, c2)

/-- A Domain, src/main.rs:123-136: the last allocated id and the map from
keys to allocated ids (the HashMap is modelled as an association list;
keys enter it exactly once, on allocation). -/
structure DomainState where
  lastid : Nat
  map : List (Chars × Nat)

def domainInit : DomainState := ⟨0, []⟩

def dlookup : List (Chars × Nat) → Chars → Option Nat
  | [], _ => none
  | (k, id) :: rest, key => if k = key then some id else dlookup rest key

/-- One domain lookup, the mechanism shared by src/main.rs:937-971,
src/main.rs:987-1005 and src/main.rs:1024-1039: a known key reuses its id
and emits nothing; an unknown key advances lastid, is inserted, and emits
one row to the domain lookup table. Returns ((id, row emitted), state). -/
def domainStep (d : DomainState) (key : Chars) : (Nat × Bool) × DomainState :=
  match dlookup d.map key with
  | some id => ((id, false), d)
  | none =>
    ((d.lastid + 1, true), ⟨d.lastid + 1, d.map ++ [(key, d.lastid + 1)]⟩)

/-- A run of domain lookups over a list of keys, returning the (id,
emitted) result of each lookup in order and the final domain state. -/
def domainRun (d : DomainState) : List Chars → List (Nat × Bool) × DomainState
  | [] => ([], d)
  | k :: ks =>
    match domainStep d k with
    | (r, d1) =>
      match domainRun d1 ks with
      | (rs, d2) => (r :: rs, d2)

def domainResults (ks : List Chars) : List (Nat × Bool) :=
  (domainRun domainInit ks).1

/-- The keys of a run in order of first occurrence (the insertion order of
the domain map). -/
def extendSeen (seen : List Chars) : List Chars → List Chars
  | [] => seen
  | k :: ks => extendSeen (if k ∈ seen then seen else seen ++ [k]) ks

def distinctKeys (ks : List Chars) : List Chars := extendSeen [] ks

/-- Index of the first occurrence of a key in a list (junk when absent). -/
def idxOfKey : List Chars → Chars → Nat
  | [], _ => 0
  | k :: rest, key => if k = key then 0 else idxOfKey rest key + 1

/-- The domain map reached after the keys seen (in first-occurrence order)
have been inserted: key i carries id base + i. -/
def mkMap : List Chars → Nat → List (Chars × Nat)
  | [], _ => []
  | k :: rest, base => (k, base) :: mkMap rest (base + 1)

def mkState (seen : List Chars) : DomainState := ⟨seen.length, mkMap seen 1⟩

/-- Reference recursion for the results of a domain run starting from the
state mkState seen (used to prove the run-level properties). -/
def resultsSpec (seen : List Chars) : List Chars → List (Nat × Bool)
  | [] => []
  | k :: ks =>
    if k ∈ seen then (idxOfKey seen k + 1, false) :: resultsSpec seen ks
    else (seen.length + 1, true) :: resultsSpec (seen ++ [k]) ks

/-- struct Geometry, src/main.rs:161-172. Coordinates are f64 in the
source; only their ordering and their 8-byte encoding are used by the
encoder, so they are modelled as rationals and the IEEE-754 little-endian
encoding is abstracted as a parameter (enc below). -/
structure Geometry where
  gtype : Nat
  dims : Nat
  srid : Nat
  rings : List (List ℚ)

/-- struct BBox, src/main.rs:174-189. -/
structure BBox where
  minx : ℚ
  miny : ℚ
  maxx : ℚ
  maxy : ℚ

/-- The four little-endian bytes of a u32 (to_le_bytes in the source;
larger arguments wrap as the as-u32 casts do). -/
def le32 (n : Nat) : List Nat := [n % 256, n / 256 % 256, n / 65536 % 256, n / 16777216 % 256]

/-- The wkb flags byte, src/main.rs:234-241: 32 marks the SRID, bit 128 is
added for three dimensions; any other dimension count warns and falls back
to 32 (the warning is not modelled). -/
def wkbCode (dims : Nat) : Nat :=
  if dims = 2 then 32 else if dims = 3 then 160 else 32

/-- Header bytes of one geometry, src/main.rs:242-244: endianness byte,
the geometry type as a little-endian u32, the flags byte, the SRID, and
for polygons the ring count. -/
def geomHeader (g : Geometry) : List Nat :=
  [1, g.gtype % 256, 0, 0, wkbCode g.dims] ++ le32 g.srid ++
    (if g.gtype = 3 then le32 g.rings.length else [])

/-- Bytes of one ring, src/main.rs:249 and src/main.rs:272-277: for
non-point geometries the vertex count (coordinate count divided by the
dimension count), then the coordinate encodings. -/
def ringBytes (enc : ℚ → List Nat) (g : Geometry) (ring : List ℚ) : List Nat :=
  (if g.gtype = 1 then [] else le32 ((ring.length % 2 ^ 32) / g.dims)) ++
    (ring.map enc).flatten

/-- The bbox scan of one ring, src/main.rs:250-265: positions are indexed
from zero per ring; in two dimensions an even index refreshes overlapx
from the x bounds and an odd index sets overlap when overlapx holds and
the y coordinate is below miny and above maxy at once (the comparison as
written in the source); otherwise indices are taken mod 3 and the second
coordinate uses the inclusive y-range comparison. The accumulator
(overlapx, overlap) persists across the rings of one geometry. -/
def ringScan (bb : BBox) (dims : Nat) : Nat → Bool × Bool → List ℚ → Bool × Bool
  | _, acc, [] => acc
  | i, (ox, ov), pos :: rest =>
    if ov then ringScan bb dims (i + 1) (ox, ov) rest
    else if dims = 2 then
      if i % 2 = 0 then
        ringScan bb dims (i + 1) (decide (bb.minx ≤ pos ∧ pos ≤ bb.maxx), ov) rest
      else
        ringScan bb dims (i + 1) (ox, ov || (ox && decide (pos < bb.miny ∧ bb.maxy < pos))) rest
    else
      if i % 3 = 0 then
        ringScan bb dims (i + 1) (decide (bb.minx ≤ pos ∧ pos ≤ bb.maxx), ov) rest
      else if i % 3 = 1 then
        ringScan bb dims (i + 1) (ox, ov || (ox && decide (bb.miny ≤ pos ∧ pos ≤ bb.maxy))) rest
      else
        ringScan bb dims (i + 1) (ox, ov) rest

/-- Whether the bbox scan finds an overlap in some ring of one geometry,
src/main.rs:246-268. -/
def geomOverlap (bb : BBox) (g : Geometry) : Bool :=
  (g.rings.foldl (fun acc ring => ringScan bb g.dims 0 acc ring) (false, false)).2

/-- Full byte encoding of one geometry. -/
def geomBytes (enc : ℚ → List Nat) (g : Geometry) : List Nat :=
  geomHeader g ++ (g.rings.map (ringBytes enc g)).flatten

/-- The per-geometry loop of gml_to_ewkb, src/main.rs:232-279: each
geometry appends its bytes; with a bbox, a geometry none of whose
vertices overlaps makes the encoder return pruned immediately (none). -/
def geomsEncode (enc : ℚ → List Nat) (bbox : Option BBox) :
    List Geometry → Option (List Nat)
  | [] => some []
  | g :: rest =>
    match bbox with
    | some bb =>
      if geomOverlap bb g then (geomsEncode enc bbox rest).map (geomBytes enc g ++ ·)
      else none
    | none => (geomsEncode enc none rest).map (geomBytes enc g ++ ·)

/-- gml_to_ewkb, src/main.rs:223-289, at the byte level (the final
uppercase hex rendering of src/main.rs:281-287 is not needed by the
claims). Except error models the panic on an empty collection with
multitype (coll.first().unwrap() at src/main.rs:227); ok none models the
pruned return false; ok (some bytes) the successful encoding. -/
def gml_to_ewkb (enc : ℚ → List Nat) (coll : List Geometry)
    (bbox : Option BBox) (multitype : Bool) : Except Unit (Option (List Nat)) :=
  if multitype || decide (coll.length > 1) then
    match coll with
    | [] => .error ()
    | g :: rest =>
      let header := [1, (g.gtype + 3) % 256, 0, 0, 0] ++ le32 (g :: rest).length
      match geomsEncode enc bbox (g :: rest) with
      | none => .ok none
      | some body => .ok (some (header ++ body))
  else
    match geomsEncode enc bbox coll with
    | none => .ok none
    | some body => .ok (some body)

/-- Cardinality, src/main.rs:49-56 (the None variant is only used for
domain lookup tables and plays no part in validation). -/
inductive Cardinality where
  | Default
  | OneToMany
  | ManyToOne
  | ManyToMany
deriving DecidableEq

/-- One column entry of the configuration document as read by add_table
(src/main.rs:291-439), restricted to the fields that validation consults.
incl, excl and find record whether the option is present (its regex is
assumed well formed; an invalid regex is a separate fatal error not
modelled here), bbox whether a syntactically valid bbox string is present
(BBox::from is abstracted), and cols the nested subtable entries. -/
inductive ColSpec where
  | mk (name : Option Chars) (path : Option Chars) (seri : Bool)
      (file : Option Chars) (norm : Option Chars) (conv : Option Chars)
      (incl : Bool) (excl : Bool) (aggr : Option Chars) (bbox : Bool)
      (find : Bool) (cols : Option (List ColSpec)) : ColSpec

/-- The cardinality derived from the file and norm options,
src/main.rs:315-320. -/
def cardOf (file norm : Option Chars) : Cardinality :=
  match file, norm with
  | none, none => .Default
  | some _, none => .OneToMany
  | none, some _ => .ManyToOne
  | some _, some _ => .ManyToMany

/-- The bbox check, src/main.rs:433-435: a bbox without conversion type
gml-to-ewkb only prints a warning; configuration loading succeeds. -/
def checkColBBox (hushWarning : Bool) (acc : List Chars)
    (conv : Option Chars) (bbox : Bool) : Except Chars (List Chars) :=
  if bbox && (conv.isNone || !(conv = some ("gml-to-ewkb".data))) && !hushWarning then
    .ok (acc ++ ["Warning: the bbox option has no function without conversion type gml-to-ewkb".data])
  else .ok acc

def checkColTail3 (hushNotice hushWarning : Bool) (acc : List Chars)
    (conv : Option Chars) (incl excl : Bool) (aggr : Option Chars)
    (bbox : Bool) (find : Bool) : Except Chars (List Chars) :=
  if incl || excl then
    if conv.isSome then
      .error ("Error: filtering incl excl and conv cannot be used together on a single column".data)
    else
      let acc := acc ++
        (if find && !hushNotice then
          ["Notice: the filter is checked after replacements".data] else []) ++
        (if aggr.isSome && !hushNotice then
          ["Notice: the filter is checked after aggregation".data] else [])
      checkColBBox hushWarning acc conv bbox
  else checkColBBox hushWarning acc conv bbox

def checkColTail2 (hushNotice hushWarning : Bool) (acc : List Chars)
    (conv : Option Chars) (incl excl : Bool) (aggr : Option Chars)
    (bbox : Bool) (find : Bool) : Except Chars (List Chars) :=
  match aggr with
  | some av =>
    if !(av = "first".data || av = "last".data || av = "append".data) then
      .error ("Error: option aggr contains invalid value".data)
    else checkColTail3 hushNotice hushWarning acc conv incl excl aggr bbox find
  | none => checkColTail3 hushNotice hushWarning acc conv incl excl aggr bbox find

/-- The tail of the per-column validation, src/main.rs:406-435: the conv
value check with the gml notice, the aggr value check, the incl/excl
versus conv check with its notices, and the non-fatal bbox warning. -/
def checkColTail (hushNotice hushWarning : Bool) (acc : List Chars)
    (conv : Option Chars) (incl excl : Bool) (aggr : Option Chars)
    (bbox : Bool) (find : Bool) : Except Chars (List Chars) :=
  match conv with
  | some cv =>
    if !(cv = "xml-to-text".data || cv = "gml-to-ewkb".data || cv = "concat-text".data) then
      .error ("Error: option conv contains invalid value".data)
    else
      let acc := acc ++
        (if cv = "gml-to-ewkb".data && !hushNotice then
          ["Notice: gml-to-ewkb conversion is experimental".data] else [])
      checkColTail2 hushNotice hushWarning acc (some cv) incl excl aggr bbox find
  | none => checkColTail2 hushNotice hushWarning acc none incl excl aggr bbox find

/-- The validation performed by add_table, src/main.rs:291-442, for one
list of column entries: either the first fatal error (fatalerr in the
source exits the process) or the list of warnings and notices printed.
Output emission, preambles and regex compilation are outside the model;
the checks and their order follow the source. The fuel argument only
makes the recursion over the nested column entries structural; callers
pass far more fuel than the configuration has entries, so the fuel error
is unreachable. -/
def checkSpecs (hushNotice hushWarning : Bool) : Nat → Bool → List ColSpec → Except Chars (List Chars)
  | 0, _, _ => .error ("Error: subtable nesting exceeded the validation fuel".data)
  | _ + 1, _, [] => .ok []
  | fuel + 1, isFirst,
      .mk nameOpt pathOpt seri file norm conv incl excl aggr bbox find cols :: rest =>
    let head : Except Chars (List Chars) :=
      match nameOpt with
      | none => .error ("Error: column has no name entry in configuration file".data)
      | some cname =>
        if !seri && pathOpt.isNone then
          .error ("Error: column has no path entry in configuration file".data)
        else
          let w1 : List Chars :=
            if seri && !isFirst && !hushWarning then
              ["Warning: a seri column usually needs to be the first column".data]
            else []
          let sub : Except Chars (List Chars) :=
            match cols with
            | none =>
              match cardOf file norm with
              | .OneToMany =>
                if isFirst then
                  .error ("Error: table cannot have a subtable as first column".data)
                else .ok []
              | .ManyToMany =>
                if isFirst then
                  .error ("Error: table cannot have a subtable as first column".data)
                else .ok []
              | _ => .ok []
            | some subcols =>
              match cardOf file norm with
              | .ManyToOne => checkSpecs hushNotice hushWarning fuel true subcols
              | .ManyToMany =>
                if isFirst then
                  .error ("Error: table cannot have a subtable as first column".data)
                else checkSpecs hushNotice hushWarning fuel true subcols
              | .Default => .error ("Error: subtable has no file entry".data)
              | .OneToMany =>
                if isFirst then
                  .error ("Error: table cannot have a subtable as first column".data)
                else checkSpecs hushNotice hushWarning fuel true subcols
          match sub with
          | .error e => .error e
          | .ok w2 =>
            match norm with
            | some nval =>
              if nval = "true".data then
                .error ("Error: norm option now takes a file path instead of a boolean".data)
              else checkColTail hushNotice hushWarning (w1 ++ w2) conv incl excl aggr bbox find
            | none => checkColTail hushNotice hushWarning (w1 ++ w2) conv incl excl aggr bbox find
    match head with
    | .error e => .error e
    | .ok w =>
      match checkSpecs hushNotice hushWarning fuel false rest with
      | .error e => .error e
      | .ok w2 => .ok (w ++ w2)

/-- add_table (src/main.rs:291-442) restricted to its validation
behaviour: the fatal errors and printed warnings for a table and its
nested subtables. -/
def add_table_model (hushNotice hushWarning : Bool) (tname : Chars)
    (colspec : List ColSpec) : Except Chars (List Chars) :=
  checkSpecs hushNotice hushWarning 1000000 true colspec

def exceptIsOk : Except Chars (List Chars) → Bool
  | .ok _ => true
  | .error _ => false

/-- An XML event as seen by process_event (src/main.rs:644): element
start with its decoded tag, decoded text, element end (the source ignores
the end tag name and truncates the tracked path instead). -/
inductive XEvent where
  | start (tag : Chars)
  | text (content : Chars)
  | close

/-- The configuration of a run restricted to a single main table with
literal (wildcard-free) paths and plain columns: no subtables, no attr,
serial or conv columns, and no domains. Under this restriction the
Repeat, Defer and Apply steps of the source never fire, so one event is
processed exactly once. rowPath is the raw configured path string
(src/main.rs:547) and tablePath its normalized form (src/main.rs:86-88);
skip is the full skip path after the prefixing of src/main.rs:533-536
(empty when the skip option is unset). -/
structure RunConfig where
  gm : Chars → Chars → Bool
  hushWarning : Bool
  tablePath : Chars
  rowPath : Chars
  skip : Chars

/-- The mutable state consulted by the restricted event loop: the column
accumulators, the table lastid, the tracked path, the filtered and
skipped flags, the counters of src/main.rs:210-212, the rows written to
the main table buffer (src/main.rs:1016-1046), and the warnings printed. -/
structure RunState where
  cols : List ColState
  lastid : Chars
  path : Chars
  filtered : Bool
  skipped : Bool
  fullcount : Nat
  filtercount : Nat
  skipcount : Nat
  rows : List Chars
  warncount : Nat

/-- The row text assembled at row end, src/main.rs:1016-1045: hidden
columns contribute nothing, a tab precedes every column of index above
zero, an empty accumulator prints as backslash-N, and the row ends with a
newline. -/
def buildRow : Nat → List ColState → Chars
  | _, [] => ['\n']
  | i, c :: rest =>
    if c.hide then buildRow (i + 1) rest
    else
      (if i > 0 then ['\t'] else []) ++
        (if c.value = [] then ['\\', 'N'] else c.value) ++ buildRow (i + 1) rest

/-- Clearing of every column accumulator (clear_columns at
src/main.rs:106-110, and the per-column clears at src/main.rs:1019,
src/main.rs:1038 and src/main.rs:1042, which together clear them all). -/
def clearValues (cols : List ColState) : List ColState :=
  cols.map (fun c => { c with value := [] })

/-- Whether some column filter rejects the row, src/main.rs:904-913: an
incl regex that does not match the accumulator, or an excl regex that
does. -/
def anyFilterFails (cols : List ColState) : Bool :=
  cols.any (fun c =>
    (match c.incl with | some p => !p c.value | none => false) ||
    (match c.excl with | some p => p c.value | none => false))

/-- Truncation of the tracked path at its last slash, src/main.rs:1064-1065
(the source panics when the path holds no slash; that cannot happen for
the balanced documents fed to the model here). -/
def truncLast (p : Chars) : Chars :=
  ((p.reverse.dropWhile (fun c => !(c = '/'))).drop 1).reverse

/-- process_event (src/main.rs:644-1100) restricted to the configurations
described at RunConfig: Start pushes the tag onto the path, honours the
filtered and skipped flags, may set skipped (src/main.rs:677-680), clears
lastid at the table path and counts a row start at the row path
(src/main.rs:746-757); Text delivers the node through the column loop
(src/main.rs:850-875); End either finishes a row at the table path —
filter evaluation, then filtercount or a written row (src/main.rs:899-1046)
— or finishes a skip region (src/main.rs:1053-1056), then truncates the
path. -/
def process_event_model (cfg : RunConfig) (s : RunState) : XEvent → RunState
  | .start tag =>
    let s := { s with path := s.path ++ '/' :: tag }
    if s.filtered || s.skipped then s
    else if path_match cfg.gm s.path cfg.skip then { s with skipped := true }
    else if s.path.length ≥ cfg.tablePath.length then
      let s := if path_match cfg.gm s.path cfg.tablePath then { s with lastid := [] } else s
      if path_match cfg.gm s.path cfg.rowPath then { s with fullcount := s.fullcount + 1 }
      else s
    else s
  | .text content =>
    if s.filtered || s.skipped then s
    else
      match textColsGo cfg.hushWarning (fun mask => path_match cfg.gm s.path mask)
          content true s.lastid s.cols with
      | (cols1, lastid1, warns) =>
        { s with cols := cols1, lastid := lastid1, warncount := s.warncount + warns }
  | .close =>
    let s :=
      if path_match cfg.gm s.path cfg.tablePath then
        if s.filtered || anyFilterFails s.cols then
          { s with filtered := false, cols := clearValues s.cols, filtercount := s.filtercount + 1 }
        else
          { s with rows := s.rows ++ [buildRow 0 s.cols], cols := clearValues s.cols }
      else if s.skipped && path_match cfg.gm s.path cfg.skip then
        { s with skipped := false, skipcount := s.skipcount + 1 }
      else s
    { s with path := truncLast s.path }

def runEvents (cfg : RunConfig) (s : RunState) (evs : List XEvent) : RunState :=
  evs.foldl (process_event_model cfg) s

/-- A placeholder 8-byte coordinate encoding standing in for the IEEE-754
little-endian f64 bytes in concrete evaluations (the theorems below never
depend on the coordinate bytes themselves). -/
def enc0 : ℚ → List Nat := fun _ => [0, 0, 0, 0, 0, 0, 0, 0]

/-- A two-dimensional point geometry with its single vertex at (5, 5). -/
def c7geom : Geometry := ⟨1, 2, 4326, [[5, 5]]⟩

/-- The bounding box from (0, 0) to (10, 10); the vertex of c7geom lies
strictly inside it. -/
def c7bbox : BBox := ⟨0, 0, 10, 10⟩

/-- A two-dimensional point geometry used for the multi-geometry header
evaluation. -/
def c8coll : List Geometry := [⟨1, 2, 4326, [[1, 2]]⟩]

/-- The bytes gml_to_ewkb emits for c8coll with multitype set. -/
def c8bytes : List Nat :=
  match gml_to_ewkb enc0 c8coll none true with
  | .ok (some bs) => bs
  | _ => []

/-- A column entry with a bbox but no conv option. -/
def c9bboxCol : ColSpec :=
  .mk (some ("id".data)) (some ("/id".data)) false none none none false false none true false none

/-- The warning printed for a bbox without conversion type gml-to-ewkb. -/
def c9bboxWarnMsg : Chars :=
  "Warning: the bbox option has no function without conversion type gml-to-ewkb".data

/-- A plain valid column entry (no options beyond name and path). -/
def c9validInner : ColSpec :=
  .mk (some ("v".data)) (some ("/v".data)) false none none none false false none false false none

/-- A column entry whose conv value is the given string. -/
def c9convCol (cv : Chars) : ColSpec :=
  .mk (some ("c".data)) (some ("/c".data)) false none none (some cv) false false none false false none

/-- A column entry combining an incl filter with a valid conv value. -/
def c9inclConvCol : ColSpec :=
  .mk (some ("c".data)) (some ("/c".data)) false none none (some ("xml-to-text".data)) true false none false false none

/-- A first-column implicit subtable: a file option without cols. -/
def c9fileFirstCol : ColSpec :=
  .mk (some ("c".data)) (some ("/c".data)) false (some ("f.tsv".data)) none none false false none false false none

/-- A first-column many-to-many subtable: file and norm options. -/
def c9mmFirstCol : ColSpec :=
  .mk (some ("c".data)) (some ("/c".data)) false (some ("f.tsv".data)) (some ("d.tsv".data)) none false false none false false none

/-- A first-column one-to-many subtable with explicit cols. -/
def c9otmFirstCol : ColSpec :=
  .mk (some ("c".data)) (some ("/c".data)) false (some ("f.tsv".data)) none none false false none false false (some [c9validInner])

/-- A column entry with the legacy norm value true. -/
def c9normTrueCol : ColSpec :=
  .mk (some ("c".data)) (some ("/c".data)) false none (some ("true".data)) none false false none false false none

/-- A first-column many-to-one subtable: a norm option with explicit cols
and no file option. -/
def c9mtoFirstCol : ColSpec :=
  .mk (some ("c".data)) (some ("/c".data)) false none (some ("d.tsv".data)) none false false none false false (some [c9validInner])

/-- A glob matcher instance for runs whose masks are all literal (it is
never consulted on such masks). -/
def gm0 : Chars → Chars → Bool := fun _ _ => false

/-- The single text column of the row-accounting run. -/
def c6col : ColState := { colDefault with path := "/r/row/id".data }

/-- Configuration of the row-accounting run: main table at /r/row, skip
element x under the row. -/
def c6cfg : RunConfig := ⟨gm0, false, "/r/row".data, "/r/row".data, "/r/row/x".data⟩

def c6init : RunState := ⟨[c6col], [], [], false, false, 0, 0, 0, [], 0⟩

/-- The events of the document with one row holding an id element and one
skipped x element. -/
def c6events : List XEvent :=
  [.start ("r".data), .start ("row".data), .start ("id".data), .text ("1".data), .close,
    .start ("x".data), .text ("zzz".data), .close, .close, .close]

def c6final : RunState := runEvents c6cfg c6init c6events

/-- A plain column already holding the value x (for concrete instances of
the aggregation semantics). -/
def c4col : ColState := { colDefault with value := ("x".data) }

theorem replaceAllChar_append (t : Char) (r : Chars) (a b : Chars) :
    replaceAllChar t r (a ++ b) = replaceAllChar t r a ++ replaceAllChar t r b := by
  induction a with
  | nil => rfl
  | cons c a ih => simp [replaceAllChar, ih]

theorem escapeNoTrim_cons (c : Char) (v : Chars) :
    escapeNoTrim (c :: v) = escChar c ++ escapeNoTrim v := by
  have h : (c :: v) = [c] ++ v := rfl
  rw [escapeNoTrim, h]
  rw [replaceAllChar_append, replaceAllChar_append, replaceAllChar_append,
    replaceAllChar_append]
  rw [show escChar c ++ escapeNoTrim v =
      escChar c ++ replaceAllChar '\t' ['\\', 't']
        (replaceAllChar '\n' ['\\', 'n']
          (replaceAllChar '\r' ['\\', 'r']
            (replaceAllChar '\\' ['\\', '\\'] v))) from rfl]
  congr 1
  by_cases h1 : c = '\\'
  . subst h1; rfl
  . by_cases h2 : c = '\r'
    . subst h2; rfl
    . by_cases h3 : c = '\n'
      . subst h3; rfl
      . by_cases h4 : c = '\t'
        . subst h4; rfl
        . simp [replaceAllChar, escChar, h1, h2, h3, h4]

theorem decodeTSV_cons_of_ne (c : Char) (rest : Chars) (h : ¬ c = '\\') :
    decodeTSV (c :: rest) = c :: decodeTSV rest := by
  rw [decodeTSV.eq_def]
  simp [h]

theorem decodeTSV_escapeNoTrim (v : Chars) :
    decodeTSV (escapeNoTrim v) = v := by
  induction v with
  | nil => rfl
  | cons c v ih =>
    rw [escapeNoTrim_cons]
    by_cases h1 : c = '\\'
    . subst h1; simpa [escChar, decodeTSV] using ih
    . by_cases h2 : c = '\r'
      . subst h2; simpa [escChar, decodeTSV] using ih
      . by_cases h3 : c = '\n'
        . subst h3; simpa [escChar, decodeTSV] using ih
        . by_cases h4 : c = '\t'
          . subst h4; simpa [escChar, decodeTSV] using ih
          . simp only [escChar, h1, h2, h3, h4, if_false, List.singleton_append]
            rw [decodeTSV_cons_of_ne c _ h1, ih]

/-- C1. Escape round-trip: a text node accumulated with trim false (and no
find/replace) is escaped by replacing backslash first, then CR, LF and TAB
(src/main.rs:863), and decoding the emitted TSV field restores the node
verbatim; with trim true the node first has its whitespace runs containing
a newline collapsed to a single space and only backslash and TAB are
escaped (src/main.rs:859-860). -/
theorem c1_escape_roundtrip (v : Chars) :
    decodeTSV (escapeText false v) = v ∧
    escapeText true v = escapeTrimOnly (trimReplaceAll v) :=
  ⟨decodeTSV_escapeNoTrim v, rfl⟩

theorem textColsGo_cols (hushW : Bool) (pm : Chars → Bool) (v : Chars)
    (isFirst : Bool) (lastid : Chars) (cols : List ColState) :
    (textColsGo hushW pm v isFirst lastid cols).1 =
      match firstEligible pm cols with
      | none => cols
      | some i => cols.set i (applyText hushW (cols.getD i colDefault) v).1 := by
  induction cols generalizing isFirst lastid with
  | nil => rfl
  | cons c rest ih =>
    by_cases h : colEligible pm c
    . rcases hap : applyText hushW c v with ⟨c1, warns, wrote⟩
      simp [textColsGo, firstEligible, h, hap]
    . rcases hrec : textColsGo hushW pm v false lastid rest with ⟨rest1, l1, w1⟩
      have ih2 := ih false lastid
      rw [hrec] at ih2
      cases hfe : firstEligible pm rest with
      | none =>
        rw [hfe] at ih2
        simp [textColsGo, firstEligible, h, hrec, hfe, ih2]
      | some i =>
        rw [hfe] at ih2
        simp [textColsGo, firstEligible, h, hrec, hfe, ih2]

/-- C10. A Text event outside the converter modes is delivered to at most
one column of the active table: the first column in declaration order
whose path matches the current path and that is neither an attr column
nor a serial column receives the text (src/main.rs:850-875, the loop
returns right after that column); every other column, matching or not, is
left unchanged. -/
theorem c10_text_first_eligible_column (hushW : Bool) (pm : Chars → Bool)
    (v : Chars) (lastid : Chars) (cols : List ColState) :
    (textColsGo hushW pm v true lastid cols).1 =
      match firstEligible pm cols with
      | none => cols
      | some i => cols.set i (applyText hushW (cols.getD i colDefault) v).1 :=
  textColsGo_cols hushW pm v true lastid cols

theorem escChar_ne_nil (c : Char) : ¬ escChar c = [] := by
  simp only [escChar]
  split_ifs <;> simp

theorem escapeNoTrim_ne_nil (v : Chars) (h : ¬ v = []) : ¬ escapeNoTrim v = [] := by
  match v with
  | [] => exact absurd rfl h
  | c :: rest =>
    rw [escapeNoTrim_cons]
    simp [escChar_ne_nil c]

theorem applyText_aggr_none (c : ColState) (v : Chars)
    (hv : ¬ c.value = []) (ha : c.aggr = none) :
    applyText false c v = (c, 1, false) := by
  obtain ⟨p, a, s, ag, t, h, f, ic, ex, va⟩ := c
  simp only at hv ha
  subst ha
  simp [applyText, allow_iteration, hv]

theorem receiveAll_ignored (vs : List Chars) (c : ColState)
    (ha : c.aggr = none) (hv : ¬ c.value = []) :
    receiveAll false c vs = (c, vs.length) := by
  induction vs with
  | nil => rfl
  | cons v vs ih =>
    simp [receiveAll, applyText_aggr_none c v hv ha, ih]
    omega

theorem applyText_first_value (hushW : Bool) (c : ColState) (v : Chars)
    (hv : c.value = []) :
    applyText hushW c v =
      ({ c with value :=
          match c.findRepl with
          | some f => f (escapeText c.trim v)
          | none => escapeText c.trim v }, 0, true) := by
  simp [applyText, hv]

/-- C4 counterexample. Three occurrences of a plain column (no aggr, no
hush) print two warnings, one per subsequent occurrence, not one warning
in total as the claim states. -/
theorem c4_counterexample :
    (receiveAll false colDefault [("a".data), ("b".data), ("c".data)]).2 = 2 ∧
    ¬ ((receiveAll false colDefault [("a".data), ("b".data), ("c".data)]).2 ≤ 1) := by
  refine ⟨by rfl, by decide⟩

/-- C4 amended. When a path-matched column that already holds a value
receives a subsequent value: with aggr absent the value is ignored and a
warning is printed on every subsequent occurrence, not only once (unless
warnings are hushed); with aggr first it is ignored silently; with aggr
last the accumulator is cleared and overwritten (find/replace reapplied
to the whole accumulator); with aggr append the value is concatenated
after a comma separator (src/main.rs:850-875, src/main.rs:1107-1122). -/
theorem c4_aggr_semantics (hushW : Bool) (c : ColState) (v : Chars)
    (hv : ¬ c.value = []) :
    (c.aggr = none → applyText false c v = (c, 1, false)) ∧
    (c.aggr = some .first → applyText hushW c v = (c, 0, false)) ∧
    (c.aggr = some .last → applyText hushW c v =
      ({ c with value :=
          match c.findRepl with
          | some f => f (escapeText c.trim v)
          | none => escapeText c.trim v }, 0, true)) ∧
    (c.aggr = some .append → applyText hushW c v =
      ({ c with value :=
          match c.findRepl with
          | some f => f (c.value ++ ',' :: escapeText c.trim v)
          | none => c.value ++ ',' :: escapeText c.trim v }, 0, true)) ∧
    (∀ c0 v0 vs, c0.value = [] → c0.aggr = none → c0.trim = false →
      c0.findRepl = none → ¬ v0 = [] →
      (receiveAll false c0 (v0 :: vs)).2 = vs.length) := by
  refine ⟨fun ha => applyText_aggr_none c v hv ha, fun ha => ?_, fun ha => ?_,
    fun ha => ?_, fun c0 v0 vs h0 ha ht hf hnv => ?_⟩
  . obtain ⟨p, a, s, ag, t, h, f, ic, ex, va⟩ := c
    simp only at hv ha
    subst ha
    simp [applyText, allow_iteration, hv]
  . obtain ⟨p, a, s, ag, t, h, f, ic, ex, va⟩ := c
    simp only at hv ha
    subst ha
    simp [applyText, allow_iteration, hv]
  . obtain ⟨p, a, s, ag, t, h, f, ic, ex, va⟩ := c
    simp only at hv ha
    subst ha
    simp [applyText, allow_iteration, hv]
  . obtain ⟨p, a, s, ag, t, h, f, ic, ex, va⟩ := c0
    simp only at h0 ha ht hf
    subst h0; subst ha; subst ht; subst hf
    rw [receiveAll, applyText_first_value false _ v0 rfl]
    simp only [escapeText, if_neg (Bool.false_ne_true ∘ id)]
    have hne := escapeNoTrim_ne_nil v0 hnv
    rw [receiveAll_ignored vs _ rfl (by simpa [escapeText] using hne)]
    simp

/-- C4 witness: the amended aggregation semantics at the concrete column
c4col and value y. -/
theorem c4_aggr_semantics_witness :
    ((c4col.aggr = none → applyText false c4col ("y".data) = (c4col, 1, false)) ∧
    (c4col.aggr = some .first → applyText false c4col ("y".data) = (c4col, 0, false)) ∧
    (c4col.aggr = some .last → applyText false c4col ("y".data) =
      ({ c4col with value :=
          match c4col.findRepl with
          | some f => f (escapeText c4col.trim ("y".data))
          | none => escapeText c4col.trim ("y".data) }, 0, true)) ∧
    (c4col.aggr = some .append → applyText false c4col ("y".data) =
      ({ c4col with value :=
          match c4col.findRepl with
          | some f => f (c4col.value ++ ',' :: escapeText c4col.trim ("y".data))
          | none => c4col.value ++ ',' :: escapeText c4col.trim ("y".data) }, 0, true)) ∧
    (∀ c0 v0 vs, c0.value = [] → c0.aggr = none → c0.trim = false →
      c0.findRepl = none → ¬ v0 = [] →
      (receiveAll false c0 (v0 :: vs)).2 = vs.length)) :=
  c4_aggr_semantics false c4col ("y".data) (by decide)

/-- C5 counterexample. An attr-sourced column 0 with find a, replace b
consuming the attribute value a: the accumulator receives the rewritten
value b (src/main.rs:792-795) but lastid receives the raw value a
(src/main.rs:791), so lastid differs from the column value after rewrites. -/
theorem c5_counterexample :
    (attrReceive false ("k".data) (some (replaceAllChar 'a' ['b'])) none true
      [(("k".data), ("a".data))] [] []).1 = ("b".data) ∧
    (attrReceive false ("k".data) (some (replaceAllChar 'a' ['b'])) none true
      [(("k".data), ("a".data))] [] []).2.1 = ("a".data) ∧
    ¬ (("b".data : Chars) = ("a".data)) := by
  refine ⟨by rfl, by rfl, by decide⟩

/-- C5 amended. When column 0 first receives its value in a row (empty
accumulator, lastid cleared at row start): from element text, lastid ends
equal to the column value after all rewrites, escaping and find/replace
included (src/main.rs:858-872); from an attribute, lastid receives the
raw attribute value before find/replace (src/main.rs:791), which equals
the column value only when no find/replace is configured. -/
theorem c5_lastid_amended (hushW : Bool) (pm : Chars → Bool) (v : Chars)
    (c : ColState) (rest : List ColState) (lastid req av : Chars)
    (f : Chars → Chars) (aggr : Option Aggr)
    (helig : colEligible pm c = true) (hval : c.value = []) :
    (textColsGo hushW pm v true [] (c :: rest)).2.1 = ((applyText hushW c v).1).value ∧
    attrReceive hushW req none aggr true [(req, av)] [] lastid =
      (av, lastid ++ av, if av = [] && !hushW then 1 else 0) ∧
    attrReceive hushW req (some f) aggr true [(req, av)] [] lastid =
      (f av, lastid ++ av, if f av = [] && !hushW then 1 else 0) := by
  refine ⟨?_, ?_, ?_⟩
  . rw [show (textColsGo hushW pm v true [] (c :: rest)) =
        if colEligible pm c then
          match applyText hushW c v with
          | (c1, warns, wrote) =>
            (c1 :: rest, if wrote && true then [] ++ c1.value else [], warns)
        else
          match textColsGo hushW pm v false [] rest with
          | (rest1, lastid1, warns) => (c :: rest1, lastid1, warns) from rfl]
    rcases hap : applyText hushW c v with ⟨c1, warns, wrote⟩
    have hw : wrote = true := by
      rw [applyText_first_value hushW c v hval] at hap
      cases hap
      rfl
    simp [helig, hap, hw]
  . simp [attrReceive]
  . simp [attrReceive]

/-- C5 witness: the amended lastid behaviour at a concrete column, text
value and attribute. -/
theorem c5_lastid_amended_witness :
    ((textColsGo false (fun x => true) ("t".data) true [] (colDefault :: [])).2.1 =
      ((applyText false colDefault ("t".data)).1).value ∧
    attrReceive false ("k".data) none none true [(("k".data), ("a".data))] [] [] =
      (("a".data), [] ++ ("a".data), if ("a".data : Chars) = [] && !false then 1 else 0) ∧
    attrReceive false ("k".data) (some (replaceAllChar 'a' ['b'])) none true
        [(("k".data), ("a".data))] [] [] =
      (replaceAllChar 'a' ['b'] ("a".data), [] ++ ("a".data),
        if replaceAllChar 'a' ['b'] ("a".data) = [] && !false then 1 else 0)) :=
  c5_lastid_amended false (fun x => true) ("t".data) colDefault [] [] ("k".data)
    ("a".data) (replaceAllChar 'a' ['b']) none (by rfl) (by rfl)

theorem natDigitsAux_ne_nil (n : Nat) : ∀ acc : Chars, ¬ acc = [] → ¬ natDigitsAux n acc = [] := by
  induction n using Nat.strong_induction_on with
  | _ n ih =>
    intro acc hacc
    match n with
    | 0 => simpa [natDigitsAux] using hacc
    | m + 1 =>
      rw [natDigitsAux]
      exact ih ((m + 1) / 10) (Nat.div_lt_self (Nat.succ_pos m) (by omega)) _ (by simp)

theorem natDigits_ne_nil (n : Nat) : ¬ natDigits n = [] := by
  rw [natDigits]
  split_ifs with h
  . simp
  . match n, h with
    | m + 1, _ =>
      rw [natDigitsAux]
      exact natDigitsAux_ne_nil ((m + 1) / 10) _ (by simp)

theorem iterHits_stuck (k : Nat) (s : SerialState) (h : ¬ s.value = []) :
    iterHits k s = s := by
  induction k with
  | zero => rfl
  | succ k ih =>
    rw [iterHits, serialHit, if_neg h]
    exact ih

theorem iterHits_row (k c : Nat) (hk : 1 ≤ k) (hc : c + 1 < 2 ^ 64) :
    iterHits k ⟨c, [], []⟩ =
      ⟨c + 1, natDigits (c + 1), natDigits (c + 1)⟩ := by
  match k, hk with
  | j + 1, _ =>
    rw [iterHits, serialHit]
    simp only [Nat.mod_eq_of_lt hc, if_pos rfl, List.nil_append]
    exact iterHits_stuck j _ (natDigits_ne_nil (c + 1))

theorem serialRun_spec (ks : List Nat) (c : Nat) (hks : ∀ k ∈ ks, 1 ≤ k)
    (hc : c + ks.length < 2 ^ 64) :
    serialRun c ks = ((List.range' (c + 1) ks.length).map natDigits, c + ks.length) := by
  induction ks generalizing c with
  | nil => simp [serialRun]
  | cons k ks ih =>
    have hk : 1 ≤ k := hks k (List.mem_cons_self k ks)
    have hc1 : c + 1 < 2 ^ 64 := by simp at hc; omega
    rw [serialRun, iterHits_row k c hk hc1]
    have ih2 := ih (c + 1) (fun x hx => hks x (List.mem_cons_of_mem k hx)) (by simp at hc ⊢; omega)
    simp only [ih2, List.length_cons, List.range'_succ, List.map_cons, Prod.mk.injEq]
    exact ⟨trivial, by omega⟩

/-- C2. A serial column produces exactly the decimal renderings of
1, 2, 3, up to the number of rows, in emission order — strictly increasing
positive integers, unique per owning Table — and its counter ends equal
to the row count, having advanced exactly once per row: within a row the
counter moves only on the first matching Start event, while the
accumulator is still empty (src/main.rs:764-773). Each row must see at
least one matching Start event and the u64 counter must not wrap. -/
theorem c2_serial_monotone (ks : List Nat) (hks : ∀ k ∈ ks, 1 ≤ k)
    (hlen : ks.length < 2 ^ 64) :
    serialRun 0 ks = ((List.range' 1 ks.length).map natDigits, ks.length) := by
  simpa using serialRun_spec ks 0 hks (by omega)

/-- C2 witness: two rows with one and two matching Start events produce
the values 1 and 2. -/
theorem c2_serial_monotone_witness :
    serialRun 0 [1, 2] = ((List.range' 1 ([1, 2] : List Nat).length).map natDigits, ([1, 2] : List Nat).length) :=
  c2_serial_monotone [1, 2] (by decide) (by norm_num)

theorem dlookup_mkMap (seen : List Chars) (base : Nat) (key : Chars) :
    dlookup (mkMap seen base) key =
      if key ∈ seen then some (idxOfKey seen key + base) else none := by
  induction seen generalizing base with
  | nil => simp [mkMap, dlookup]
  | cons k rest ih =>
    rw [mkMap, dlookup, ih (base + 1)]
    by_cases hk : k = key
    . subst hk
      simp [idxOfKey]
    . rw [if_neg hk]
      by_cases hm : key ∈ rest
      . have hmem : key ∈ k :: rest := List.mem_cons_of_mem k hm
        rw [if_pos hm, if_pos hmem, idxOfKey, if_neg hk]
        congr 1
        omega
      . have hmem : ¬ key ∈ k :: rest := by
          intro h
          rcases List.mem_cons.mp h with h1 | h2
          . exact hk h1.symm
          . exact hm h2
        rw [if_neg hm, if_neg hmem]

theorem mkMap_append (seen : List Chars) (k : Chars) (base : Nat) :
    mkMap (seen ++ [k]) base = mkMap seen base ++ [(k, base + seen.length)] := by
  induction seen generalizing base with
  | nil => simp [mkMap]
  | cons a rest ih =>
    have h1 : base + 1 + rest.length = base + (rest.length + 1) := by omega
    rw [List.cons_append, mkMap, mkMap, ih (base + 1), List.length_cons, h1, List.cons_append]

theorem domainStep_mkState (seen : List Chars) (k : Chars) :
    domainStep (mkState seen) k =
      if k ∈ seen then ((idxOfKey seen k + 1, false), mkState seen)
      else ((seen.length + 1, true), mkState (seen ++ [k])) := by
  have hd := dlookup_mkMap seen 1 k
  by_cases hm : k ∈ seen
  . rw [if_pos hm] at hd
    simp [domainStep, mkState, hd, hm]
  . rw [if_neg hm] at hd
    simp only [domainStep, mkState, hd, if_neg hm]
    rw [mkMap_append]
    simp [Nat.add_comm]

theorem domainRun_mkState (ks : List Chars) (seen : List Chars) :
    domainRun (mkState seen) ks = (resultsSpec seen ks, mkState (extendSeen seen ks)) := by
  induction ks generalizing seen with
  | nil => simp [domainRun, resultsSpec, extendSeen]
  | cons k ks ih =>
    rw [domainRun, domainStep_mkState]
    by_cases hm : k ∈ seen
    . rw [if_pos hm]
      rw [show resultsSpec seen (k :: ks) = (idxOfKey seen k + 1, false) :: resultsSpec seen ks
        from by rw [resultsSpec, if_pos hm]]
      rw [show extendSeen seen (k :: ks) = extendSeen seen ks
        from by rw [extendSeen, if_pos hm]]
      simp only [ih seen]
    . rw [if_neg hm]
      rw [show resultsSpec seen (k :: ks) = (seen.length + 1, true) :: resultsSpec (seen ++ [k]) ks
        from by rw [resultsSpec, if_neg hm]]
      rw [show extendSeen seen (k :: ks) = extendSeen (seen ++ [k]) ks
        from by rw [extendSeen, if_neg hm]]
      simp only [ih (seen ++ [k])]

theorem extendSeen_extends (seen : List Chars) (ks : List Chars) :
    ∃ t, extendSeen seen ks = seen ++ t := by
  induction ks generalizing seen with
  | nil => exact ⟨[], by simp [extendSeen]⟩
  | cons k ks ih =>
    rw [extendSeen]
    by_cases hm : k ∈ seen
    . rw [if_pos hm]
      exact ih seen
    . rw [if_neg hm]
      obtain ⟨t, ht⟩ := ih (seen ++ [k])
      exact ⟨[k] ++ t, by rw [ht, List.append_assoc]⟩

theorem idxOfKey_append (seen t : List Chars) (k : Chars) (h : k ∈ seen) :
    idxOfKey (seen ++ t) k = idxOfKey seen k := by
  induction seen with
  | nil => cases h
  | cons a rest ih =>
    by_cases ha : a = k
    . simp [idxOfKey, ha]
    . have hmem : k ∈ rest := by
        rcases List.mem_cons.mp h with h1 | h2
        . exact absurd h1.symm ha
        . exact h2
      simp [idxOfKey, ha, ih hmem]

theorem idxOfKey_concat_self (seen : List Chars) (k : Chars) (h : ¬ k ∈ seen) :
    idxOfKey (seen ++ [k]) k = seen.length := by
  induction seen with
  | nil => simp [idxOfKey]
  | cons a rest ih =>
    have ha : ¬ a = k := fun he => h (he ▸ List.mem_cons_self a rest)
    have hr : ¬ k ∈ rest := fun hm => h (List.mem_cons_of_mem a hm)
    simp [idxOfKey, ha, ih hr]

theorem resultsSpec_getD (ks : List Chars) : ∀ (seen : List Chars) (i : Nat), i < ks.length →
    (resultsSpec seen ks).getD i (0, false) =
      (idxOfKey (extendSeen seen ks) (ks.getD i []) + 1,
        decide (¬ (ks.getD i [] ∈ seen ∨ ks.getD i [] ∈ ks.take i))) := by
  induction ks with
  | nil => exact fun seen i hi => absurd hi (Nat.not_lt_zero i)
  | cons k ks ih =>
    intro seen i hi
    match i with
    | 0 =>
      rw [resultsSpec]
      by_cases hm : k ∈ seen
      . rw [if_pos hm]
        simp only [List.getD_cons_zero, List.take_zero]
        rw [show extendSeen seen (k :: ks) = extendSeen seen ks
          from by rw [extendSeen, if_pos hm]]
        obtain ⟨t, ht⟩ := extendSeen_extends seen ks
        rw [ht, idxOfKey_append seen t k hm]
        simp [hm]
      . rw [if_neg hm]
        simp only [List.getD_cons_zero, List.take_zero]
        rw [show extendSeen seen (k :: ks) = extendSeen (seen ++ [k]) ks
          from by rw [extendSeen, if_neg hm]]
        obtain ⟨t, ht⟩ := extendSeen_extends (seen ++ [k]) ks
        rw [ht, idxOfKey_append (seen ++ [k]) t k (by simp),
          idxOfKey_concat_self seen k hm]
        simp [hm]
    | i + 1 =>
      have hi2 : i < ks.length := by simpa using hi
      rw [resultsSpec]
      by_cases hm : k ∈ seen
      . rw [if_pos hm, List.getD_cons_succ, ih seen i hi2]
        rw [show extendSeen seen (k :: ks) = extendSeen seen ks
          from by rw [extendSeen, if_pos hm]]
        simp only [List.getD_cons_succ, List.take_succ_cons]
        congr 1
        rw [decide_eq_decide]
        have hck : ks.getD i [] = k → ks.getD i [] ∈ seen := fun he => he ▸ hm
        constructor
        . intro h hor
          rcases hor with h1 | h2
          . exact h (Or.inl h1)
          . rcases List.mem_cons.mp h2 with h3 | h4
            . exact h (Or.inl (hck h3))
            . exact h (Or.inr h4)
        . intro h hor
          rcases hor with h1 | h2
          . exact h (Or.inl h1)
          . exact h (Or.inr (List.mem_cons_of_mem k h2))
      . rw [if_neg hm, List.getD_cons_succ, ih (seen ++ [k]) i hi2]
        rw [show extendSeen seen (k :: ks) = extendSeen (seen ++ [k]) ks
          from by rw [extendSeen, if_neg hm]]
        simp only [List.getD_cons_succ, List.take_succ_cons]
        congr 1
        rw [decide_eq_decide]
        constructor
        . intro h hor
          rcases hor with h1 | h2
          . exact h (Or.inl (List.mem_append_left [k] h1))
          . rcases List.mem_cons.mp h2 with h3 | h4
            . exact h (Or.inl (List.mem_append_right seen (h3 ▸ List.mem_singleton_self k)))
            . exact h (Or.inr h4)
        . intro h hor
          rcases hor with h1 | h2
          . rcases List.mem_append.mp h1 with h3 | h4
            . exact h (Or.inl h3)
            . exact h (Or.inr (List.mem_cons.mpr (Or.inl (List.mem_singleton.mp h4))))
          . exact h (Or.inr (List.mem_cons_of_mem k h2))

theorem resultsSpec_filter (ks : List Chars) : ∀ seen : List Chars,
    ((resultsSpec seen ks).filter (fun r => r.2)).map (fun r => r.1) =
      List.range' (seen.length + 1) ((extendSeen seen ks).length - seen.length) := by
  induction ks with
  | nil => intro seen; simp [resultsSpec, extendSeen]
  | cons k ks ih =>
    intro seen
    rw [resultsSpec]
    by_cases hm : k ∈ seen
    . rw [if_pos hm]
      rw [show extendSeen seen (k :: ks) = extendSeen seen ks
        from by rw [extendSeen, if_pos hm]]
      simpa using ih seen
    . rw [if_neg hm]
      rw [show extendSeen seen (k :: ks) = extendSeen (seen ++ [k]) ks
        from by rw [extendSeen, if_neg hm]]
      obtain ⟨t, ht⟩ := extendSeen_extends (seen ++ [k]) ks
      have hlen : seen.length + 1 ≤ (extendSeen (seen ++ [k]) ks).length := by
        rw [ht]
        simp only [List.length_append, List.length_singleton]
        omega
      rw [show ((extendSeen (seen ++ [k]) ks).length - seen.length)
          = ((extendSeen (seen ++ [k]) ks).length - (seen ++ [k]).length) + 1
        from by simp only [List.length_append, List.length_singleton]; omega]
      rw [List.range'_succ]
      have := ih (seen ++ [k])
      simp only [List.length_append, List.length_singleton] at this
      simp [this]

theorem resultsSpec_length (ks : List Chars) : ∀ seen : List Chars,
    (resultsSpec seen ks).length = ks.length := by
  induction ks with
  | nil => intro seen; rfl
  | cons k ks ih =>
    intro seen
    rw [resultsSpec]
    by_cases hm : k ∈ seen
    . rw [if_pos hm]
      simp [ih seen]
    . rw [if_neg hm]
      simp [ih (seen ++ [k])]

theorem domainResults_eq (ks : List Chars) : domainResults ks = resultsSpec [] ks := by
  rw [domainResults, show domainInit = mkState [] from rfl, domainRun_mkState]

/-- C3. During one run of a Domain from its initial state: two lookups
with identical keys return the same surrogate id; a lookup emits a row to
the domain lookup table exactly when its key has not been seen before
(so exactly once per distinct key, at allocation, never on reuse); and
the ids of the emitted rows are consecutive starting at 1
(src/main.rs:931-984, src/main.rs:1024-1039). -/
theorem c3_domain_idempotence (ks : List Chars) (i j : Nat)
    (hi : i < ks.length) (hj : j < ks.length)
    (hk : ks.getD i [] = ks.getD j []) :
    ((domainResults ks).getD i (0, false)).1 = ((domainResults ks).getD j (0, false)).1 ∧
    (((domainResults ks).getD i (0, false)).2 = true ↔ ¬ ks.getD i [] ∈ ks.take i) ∧
    ((domainResults ks).filter (fun r => r.2)).map (fun r => r.1) =
      List.range' 1 (distinctKeys ks).length := by
  rw [domainResults_eq]
  refine ⟨?_, ?_, ?_⟩
  . rw [resultsSpec_getD ks [] i hi, resultsSpec_getD ks [] j hj, hk]
  . rw [resultsSpec_getD ks [] i hi]
    simp
  . rw [resultsSpec_filter ks []]
    have hlen : (extendSeen ([] : List Chars) ks).length - ([] : List Chars).length
        = (distinctKeys ks).length := by simp [distinctKeys]
    rw [hlen]
    rfl

/-- C3 witness: the keys a, b, a; the first and third lookup share id 1,
the first emits, the third does not, and the emitted ids are 1, 2. -/
theorem c3_domain_idempotence_witness :
    (((domainResults [("a".data), ("b".data), ("a".data)]).getD 0 (0, false)).1 =
      ((domainResults [("a".data), ("b".data), ("a".data)]).getD 2 (0, false)).1) ∧
    (((domainResults [("a".data), ("b".data), ("a".data)]).getD 0 (0, false)).2 = true ↔
      ¬ ([("a".data), ("b".data), ("a".data)] : List Chars).getD 0 [] ∈
        ([("a".data), ("b".data), ("a".data)] : List Chars).take 0) ∧
    ((domainResults [("a".data), ("b".data), ("a".data)]).filter (fun r => r.2)).map (fun r => r.1) =
      List.range' 1 (distinctKeys [("a".data), ("b".data), ("a".data)]).length :=
  c3_domain_idempotence [("a".data), ("b".data), ("a".data)] 0 2
    (by decide) (by decide) (by decide)

/-- C7 (code bug). With the bbox (0,0)-(10,10) configured, a
two-dimensional point whose single vertex (5,5) lies inside the box is
nevertheless pruned: the y comparison written at src/main.rs:257 requires
the coordinate to be below miny and above maxy at once, which no value
satisfies, so overlap is never set for two-dimensional geometries and
gml_to_ewkb returns pruned; the claim (and the intended predicate the
spec describes) says such a row is not pruned. -/
theorem c7_bbox_prunes_inside_vertex :
    gml_to_ewkb enc0 [c7geom] (some c7bbox) false = .ok none ∧
    (c7bbox.minx ≤ 5 ∧ (5 : ℚ) ≤ c7bbox.maxx ∧ c7bbox.miny ≤ 5 ∧ (5 : ℚ) ≤ c7bbox.maxy) := by
  constructor
  . rfl
  . refine ⟨by norm_num [c7bbox], by norm_num [c7bbox], by norm_num [c7bbox], by norm_num [c7bbox]⟩

/-- C8 counterexample. For a single point geometry with multitype set,
the emitted stream is 01, the multi-type byte 4, three zero bytes, and
then the little-endian count 01 00 00 00: its first ten bytes differ from
the ten bytes the claim predicts (which put four zero bytes between the
multi-type byte and the count). -/
theorem c8_counterexample :
    c8bytes.take 10 = [1, 4, 0, 0, 0, 1, 0, 0, 0, 1] ∧
    ¬ c8bytes.take 10 = [1, 4, 0, 0, 0, 0, 1, 0, 0, 0] := by
  refine ⟨by rfl, by decide⟩

/-- C8 amended. Whenever multitype is set or the collection holds more
than one geometry, the EWKB byte stream begins with the byte 01, then the
multi-type byte equal to gtype+3, then three zero bytes (completing the
little-endian u32 type word), then the little-endian u32 geometry count,
before the per-geometry encodings follow (src/main.rs:226-230). -/
theorem c8_multi_header (enc : ℚ → List Nat) (bbox : Option BBox) (mult : Bool)
    (g : Geometry) (rest : List Geometry) (bytes : List Nat)
    (hmulti : mult = true ∨ 1 < (g :: rest).length)
    (hok : gml_to_ewkb enc (g :: rest) bbox mult = .ok (some bytes)) :
    bytes.take 9 = [1, (g.gtype + 3) % 256, 0, 0, 0] ++ le32 (g :: rest).length := by
  have hcond : (mult || decide ((g :: rest).length > 1)) = true := by
    rcases hmulti with h | h
    . simp [h]
    . simp only [List.length_cons] at h
      simp
      omega
  rw [gml_to_ewkb, if_pos hcond] at hok
  cases henc : geomsEncode enc bbox (g :: rest) with
  | none => rw [henc] at hok; cases hok
  | some body =>
    rw [henc] at hok
    have hb : bytes = ([1, (g.gtype + 3) % 256, 0, 0, 0] ++ le32 (g :: rest).length) ++ body := by
      cases hok
      rfl
    rw [hb, le32]
    rfl

/-- C8 witness: the amended header layout at the concrete single-point
collection with multitype set. -/
theorem c8_multi_header_witness :
    c8bytes.take 9 =
      [1, ((⟨1, 2, 4326, [[1, 2]]⟩ : Geometry).gtype + 3) % 256, 0, 0, 0] ++
        le32 ((⟨1, 2, 4326, [[1, 2]]⟩ : Geometry) :: ([] : List Geometry)).length :=
  c8_multi_header enc0 none true ⟨1, 2, 4326, [[1, 2]]⟩ [] c8bytes (Or.inl rfl) (by rfl)

/-- C9 counterexample. A configuration whose only column carries a bbox
but no conv option loads successfully, printing only a warning
(src/main.rs:433-435); the claim says configuration loading fails
fatally in this case. -/
theorem c9_counterexample :
    add_table_model false false ("t".data) [c9bboxCol] = .ok [c9bboxWarnMsg] ∧
    exceptIsOk (add_table_model false false ("t".data) [c9bboxCol]) = true := by
  refine ⟨by rfl, by rfl⟩

/-- C9 amended. Configuration loading fails fatally for an unknown conv
value (src/main.rs:406-409), for incl or excl combined with conv
(src/main.rs:422-425), for a subtable as the first column when the
subtable has a file — the one-to-many and many-to-many forms
(src/main.rs:325, 333, 350, 357) — and for the legacy norm value true
(src/main.rs:373). A bbox without conv gml-to-ewkb is only a warning, not
fatal (src/main.rs:433-435), and a many-to-one subtable (norm with cols,
no file) is accepted as first column: that branch carries no first-column
check (src/main.rs:342-347). -/
theorem c9_validation (cv : Chars)
    (hcv : ¬ (cv = ("xml-to-text".data) ∨ cv = ("gml-to-ewkb".data) ∨ cv = ("concat-text".data))) :
    exceptIsOk (add_table_model false false ("t".data) [c9convCol cv]) = false ∧
    exceptIsOk (add_table_model false false ("t".data) [c9inclConvCol]) = false ∧
    exceptIsOk (add_table_model false false ("t".data) [c9fileFirstCol]) = false ∧
    exceptIsOk (add_table_model false false ("t".data) [c9mmFirstCol]) = false ∧
    exceptIsOk (add_table_model false false ("t".data) [c9otmFirstCol]) = false ∧
    exceptIsOk (add_table_model false false ("t".data) [c9normTrueCol]) = false ∧
    add_table_model false false ("t".data) [c9bboxCol] = .ok [c9bboxWarnMsg] ∧
    exceptIsOk (add_table_model false false ("t".data) [c9mtoFirstCol]) = true := by
  have h1 : ¬ cv = ("xml-to-text".data) := fun h => hcv (Or.inl h)
  have h2 : ¬ cv = ("gml-to-ewkb".data) := fun h => hcv (Or.inr (Or.inl h))
  have h3 : ¬ cv = ("concat-text".data) := fun h => hcv (Or.inr (Or.inr h))
  refine ⟨?_, by rfl, by rfl, by rfl, by rfl, by rfl, by rfl, by rfl⟩
  simp +decide [add_table_model, checkSpecs, c9convCol, cardOf,
    checkColTail, h1, h2, h3, exceptIsOk]

/-- C9 witness: the amended validation outcomes at the concrete conv
value bogus. -/
theorem c9_validation_witness :
    exceptIsOk (add_table_model false false ("t".data) [c9convCol ("bogus".data)]) = false ∧
    exceptIsOk (add_table_model false false ("t".data) [c9inclConvCol]) = false ∧
    exceptIsOk (add_table_model false false ("t".data) [c9fileFirstCol]) = false ∧
    exceptIsOk (add_table_model false false ("t".data) [c9mmFirstCol]) = false ∧
    exceptIsOk (add_table_model false false ("t".data) [c9otmFirstCol]) = false ∧
    exceptIsOk (add_table_model false false ("t".data) [c9normTrueCol]) = false ∧
    add_table_model false false ("t".data) [c9bboxCol] = .ok [c9bboxWarnMsg] ∧
    exceptIsOk (add_table_model false false ("t".data) [c9mtoFirstCol]) = true :=
  c9_validation ("bogus".data) (by decide)

/-- C6 (code bug). In a run whose single row contains one skipped
element, the row start is counted once in fullcount, the skip region once
in skipcount, and the row is nevertheless written (no filter fires), so
written rows + filtercount + skipcount = 1 + 0 + 1 = 2 differs from
fullcount = 1: the claimed accounting identity fails because skipcount
counts completed skip regions inside rows that are still written
(src/main.rs:1053-1056 versus src/main.rs:899-1046), while the summary
line at src/main.rs:618-629 reports fullcount minus filtercount minus
skipcount as the number of rows processed. -/
theorem c6_row_accounting :
    c6final.fullcount = 1 ∧ c6final.filtercount = 0 ∧ c6final.skipcount = 1 ∧
    c6final.rows = [("1\n".data)] ∧
    ¬ (c6final.rows.length + c6final.filtercount + c6final.skipcount = c6final.fullcount) := by
  refine ⟨by rfl, by rfl, by rfl, by rfl, by decide⟩
